import Mathlib

/-!
Shallow embedding of the harfrust.net FFI wrapper (src/rust/src/lib.rs).

Modelling conventions:
* A raw pointer argument is `Option X`: `none` is the null pointer, `some x`
  the pointed-to value.  A function that mutates through a `*mut` pointer
  returns the updated pointed-to value (same handle, new contents); a
  function that reads through `*const` leaves the value untouched.
* Status codes (`i32`) are `Int`.
* Byte blobs and C strings are `List Nat` with entries below 256; UTF-16
  units are `Nat` below 2^16.
* `f32` values are carried as opaque bit patterns (`Nat`); the wrapper never
  computes with them, it only copies them across the boundary.
* The external shaping engine (the harfrust crate) is not part of this
  repository.  Operations of the engine whose behaviour a claim depends on
  are modelled from the spec (doc comments say so); the remaining engine
  operations are parameters of a `ShapeEngine` record, so theorems about the
  wrapper hold for every engine.
-/

/-- Text direction for shaping (lib.rs `HarfRustDirection`).  The wrapper's
enum and the engine's `harfrust::Direction` are isomorphic via the two
`From` impls, which map constructors one to one; the embedding uses a single
type for both. -/
inductive Direction where
  | Invalid
  | LeftToRight
  | RightToLeft
  | TopToBottom
  | BottomToTop
deriving DecidableEq

/-- Modelled from the spec: the engine's `UnicodeBuffer` as the spec's Text
Buffer (spec section 3): an ordered sequence of (codepoint, cluster) pairs plus
the optional segment properties direction, script and language. -/
structure UnicodeBuffer where
  chars : List (Nat × Nat)
  direction : Direction
  script : Option Nat
  language : Option (List Nat)
deriving DecidableEq

/-- Modelled from the spec: a freshly constructed engine buffer is empty with
all segment properties unset. -/
def UnicodeBuffer.empty : UnicodeBuffer :=
  { chars := [], direction := Direction.Invalid, script := none, language := none }

/-- Opaque wrapper around the engine's UnicodeBuffer (lib.rs `HarfRustBuffer`). -/
structure HarfRustBuffer where
  inner : UnicodeBuffer
deriving DecidableEq

/-- Font store (lib.rs `HarfRustFont` / `FontInner`): an owned byte blob. -/
structure HarfRustFont where
  data : List Nat
deriving DecidableEq

/-- Glyph information after shaping (lib.rs `HarfRustGlyphInfo`). -/
structure HarfRustGlyphInfo where
  glyph_id : Nat
  cluster : Nat
deriving DecidableEq

/-- Glyph positioning information after shaping (lib.rs `HarfRustGlyphPosition`). -/
structure HarfRustGlyphPosition where
  x_advance : Int
  y_advance : Int
  x_offset : Int
  y_offset : Int
deriving DecidableEq

/-- Glyph info as produced by the engine (`harfrust::GlyphInfo`); the wrapper
copies its fields into `HarfRustGlyphInfo`. -/
structure EngineGlyphInfo where
  glyph_id : Nat
  cluster : Nat
deriving DecidableEq

/-- Glyph position as produced by the engine (`harfrust::GlyphPosition`). -/
structure EngineGlyphPosition where
  x_advance : Int
  y_advance : Int
  x_offset : Int
  y_offset : Int
deriving DecidableEq

/-- Modelled from the spec: the engine's `GlyphBuffer` payload.  Spec section 6
requires the external shape operation to return an ordered glyph sequence and
an ordered position sequence of equal length; `len_eq` records that
collaborator invariant.  `harfrust::GlyphBuffer::len()` is the glyph count,
i.e. the length of `infos`. -/
structure GlyphOutput where
  infos : List EngineGlyphInfo
  positions : List EngineGlyphPosition
  len_eq : infos.length = positions.length

/-- Opaque wrapper around the engine's GlyphBuffer plus the two FFI-safe
cached arrays (lib.rs `HarfRustGlyphBuffer`). -/
structure HarfRustGlyphBuffer where
  inner : GlyphOutput
  infos_cache : List HarfRustGlyphInfo
  positions_cache : List HarfRustGlyphPosition

/-- Opaque f32 bit pattern: the wrapper only copies variation values, never
computes with them. -/
abbrev F32Bits := Nat

/-- OpenType feature for shaping (lib.rs `HarfRustFeature`); `tag` is a u32. -/
structure HarfRustFeature where
  tag : Nat
  value : Nat
  start : Nat
  end_ : Nat
deriving DecidableEq

/-- Font variation setting (lib.rs `HarfRustVariation`). -/
structure HarfRustVariation where
  tag : Nat
  value : F32Bits
deriving DecidableEq

/-- Feature as handed to the engine (`harfrust::Feature`); the tag roundtrips
through `Tag::new(&u32.to_be_bytes())`, i.e. it carries the same u32. -/
structure EngineFeature where
  tag : Nat
  value : Nat
  start : Nat
  end_ : Nat
deriving DecidableEq

/-- Variation as handed to the engine (`harfrust::Variation`). -/
structure EngineVariation where
  tag : Nat
  value : F32Bits
deriving DecidableEq

/-- The external shaping engine, kept abstract: `fontParses` is success of
`FontRef::new`, `fontParsesIndex` of `FontRef::from_index`, `unitsPerEm` the
u16 metric reported by a shaper built from parsed bytes, `guess` is
`UnicodeBuffer::guess_segment_properties`, and `shape` is the composite of
building a shaper (with an optional variation instance) and running
`Shaper::shape` on a buffer and feature list. -/
structure ShapeEngine where
  fontParses : List Nat → Bool
  fontParsesIndex : List Nat → Nat → Bool
  unitsPerEm : List Nat → Nat
  guess : UnicodeBuffer → UnicodeBuffer
  shape : List Nat → Option (List EngineVariation) → UnicodeBuffer → List EngineFeature → GlyphOutput

/-! UTF-8 decoding, modelling `CStr::to_str` validation composed with
`str::char_indices` as used by the engine's `push_str` (spec section 4.3:
append codepoint-by-codepoint, cluster id = byte offset in the source
encoding). -/

/-- Whether a byte is a UTF-8 continuation byte (10xxxxxx). -/
def isCont (b : Nat) : Bool := decide (0x80 ≤ b ∧ b < 0xC0)

/-- Strict UTF-8 decoder: returns the (codepoint, starting byte offset) pairs,
or `none` on any ill-formed input (overlong forms, surrogates, values beyond
U+10FFFF, truncated sequences).  `fuel` only drives termination; the top-level
entry supplies `bytes.length`, which suffices since every step consumes at
least one byte. -/
def utf8DecodeAux : Nat → List Nat → Nat → Option (List (Nat × Nat))
  | _, [], _ => some []
  | 0, _ :: _, _ => none
  | fuel + 1, b0 :: rest, ofs =>
    if b0 < 0x80 then
      (utf8DecodeAux fuel rest (ofs + 1)).map (fun l => (b0, ofs) :: l)
    else if b0 < 0xC2 then
      none
    else if b0 < 0xE0 then
      match rest with
      | [] => none
      | b1 :: rest1 =>
        if isCont b1 then
          (utf8DecodeAux fuel rest1 (ofs + 2)).map
            (fun l => ((b0 - 0xC0) * 0x40 + (b1 - 0x80), ofs) :: l)
        else none
    else if b0 < 0xF0 then
      match rest with
      | b1 :: b2 :: rest2 =>
        if isCont b1 && isCont b2 then
          let cp := (b0 - 0xE0) * 0x1000 + (b1 - 0x80) * 0x40 + (b2 - 0x80)
          if cp < 0x800 ∨ (0xD800 ≤ cp ∧ cp < 0xE000) then none
          else (utf8DecodeAux fuel rest2 (ofs + 3)).map (fun l => (cp, ofs) :: l)
        else none
      | _ => none
    else if b0 < 0xF5 then
      match rest with
      | b1 :: b2 :: b3 :: rest3 =>
        if isCont b1 && isCont b2 && isCont b3 then
          let cp := (b0 - 0xF0) * 0x40000 + (b1 - 0x80) * 0x1000 +
            (b2 - 0x80) * 0x40 + (b3 - 0x80)
          if cp < 0x10000 ∨ 0x110000 ≤ cp then none
          else (utf8DecodeAux fuel rest3 (ofs + 4)).map (fun l => (cp, ofs) :: l)
        else none
      | _ => none
    else none

/-- UTF-8 decoding of a byte list into (codepoint, byte offset) pairs. -/
def utf8Decode (bytes : List Nat) : Option (List (Nat × Nat)) :=
  utf8DecodeAux bytes.length bytes 0

/-! Buffer functions. -/

/-- lib.rs `harfrust_buffer_new`: a fresh empty buffer. -/
def harfrust_buffer_new : HarfRustBuffer := { inner := UnicodeBuffer.empty }

/-- lib.rs `harfrust_buffer_add_str`: UTF-8 validation via `CStr::to_str`
followed by the engine's `push_str` (appends (codepoint, byte-offset) pairs).
Returns the status and the buffer contents after the call. -/
def harfrust_buffer_add_str (buffer : Option HarfRustBuffer) (text : Option (List Nat)) :
    Int × Option HarfRustBuffer :=
  match buffer with
  | none => (-1, none)
  | some b =>
    match text with
    | none => (-2, some b)
    | some bytes =>
      match utf8Decode bytes with
      | none => (-3, some b)
      | some pairs => (0, some { inner := { b.inner with chars := b.inner.chars ++ pairs } })

/-- Number of UTF-16 code units of a codepoint (`char::len_utf16`). -/
def cpLenUtf16 (cp : Nat) : Nat := if 0x10000 ≤ cp then 2 else 1

/-- Rust `std::char::decode_utf16` over a list of u16 units: one entry per
decode step, `some cp` for a decoded scalar value, `none` for an error
(unpaired surrogate).  A lone high surrogate consumes only itself; the unit
after it is re-examined.  `fuel` only drives termination: every step consumes
at least one unit, so the entry point's `fuel = units.length` never runs out. -/
def decodeUtf16Aux : Nat → List Nat → List (Option Nat)
  | _, [] => []
  | 0, _ :: _ => []
  | fuel + 1, u :: rest =>
    if u < 0xD800 ∨ 0xE000 ≤ u then
      some u :: decodeUtf16Aux fuel rest
    else if 0xDC00 ≤ u then
      none :: decodeUtf16Aux fuel rest
    else
      match rest with
      | [] => [none]
      | v :: rest1 =>
        if 0xDC00 ≤ v ∧ v < 0xE000 then
          some (0x10000 + (u - 0xD800) * 0x400 + (v - 0xDC00)) :: decodeUtf16Aux fuel rest1
        else
          none :: decodeUtf16Aux fuel (v :: rest1)

/-- Rust `std::char::decode_utf16` over a list of u16 units. -/
def decodeUtf16 (units : List Nat) : List (Option Nat) := decodeUtf16Aux units.length units

/-- The loop body of lib.rs `harfrust_buffer_add_utf16`: for each decode step
take the codepoint (substituting U+FFFD for an error), pair it with the
running cluster counter, and advance the counter by the codepoint's
`len_utf16`. -/
def addUtf16Pairs : List (Option Nat) → Nat → List (Nat × Nat)
  | [], _ => []
  | r :: rest, cluster =>
    let ch := r.getD 0xFFFD
    (ch, cluster) :: addUtf16Pairs rest (cluster + cpLenUtf16 ch)

/-- lib.rs `harfrust_buffer_add_utf16`: decodes the first `len` u16 units and
appends them via the engine's `add(ch, cluster)`. -/
def harfrust_buffer_add_utf16 (buffer : Option HarfRustBuffer) (text : Option (List Nat))
    (len : Int) : Int × Option HarfRustBuffer :=
  match buffer with
  | none => (-1, none)
  | some b =>
    match text with
    | none => (-2, some b)
    | some units =>
      if len < 0 then (-2, some b)
      else
        (0, some { inner := { b.inner with
          chars := b.inner.chars ++ addUtf16Pairs (decodeUtf16 (units.take len.toNat)) 0 } })

/-- lib.rs `harfrust_buffer_len`: number of characters in the buffer (the
`as i32` cast is modelled as the exact value; it only differs beyond 2^31
characters). -/
def harfrust_buffer_len (buffer : Option HarfRustBuffer) : Int :=
  match buffer with
  | none => -1
  | some b => (b.inner.chars.length : Int)

/-- lib.rs `harfrust_buffer_clear`; the engine's `clear` is modelled from the
spec (section 4.3): resets content and cluster counters, same handle. -/
def harfrust_buffer_clear (buffer : Option HarfRustBuffer) : Option HarfRustBuffer :=
  match buffer with
  | none => none
  | some b => some { inner := { b.inner with chars := [] } }

/-- lib.rs `harfrust_buffer_free`: the handle after the call (freed, or the
null no-op). -/
def harfrust_buffer_free (_ : Option HarfRustBuffer) : Option HarfRustBuffer := none

/-- lib.rs `harfrust_buffer_set_direction`. -/
def harfrust_buffer_set_direction (buffer : Option HarfRustBuffer) (direction : Direction) :
    Option HarfRustBuffer :=
  match buffer with
  | none => none
  | some b => some { inner := { b.inner with direction := direction } }

/-- lib.rs `harfrust_buffer_get_direction`. -/
def harfrust_buffer_get_direction (buffer : Option HarfRustBuffer) : Direction :=
  match buffer with
  | none => Direction.Invalid
  | some b => b.inner.direction

/-- Big-endian bytes of a u32 (`u32::to_be_bytes`). -/
def tagToBeBytes (t : Nat) : List Nat :=
  [t / 0x1000000 % 0x100, t / 0x10000 % 0x100, t / 0x100 % 0x100, t % 0x100]

/-- The u32 read back from four big-endian bytes (`u32::from_be_bytes`). -/
def tagOfBytes (b0 b1 b2 b3 : Nat) : Nat :=
  ((b0 * 0x100 + b1) * 0x100 + b2) * 0x100 + b3

/-- Whether a byte is an ASCII capital letter. -/
def isAsciiUpper (b : Nat) : Bool := decide (65 ≤ b ∧ b ≤ 90)

/-- Whether a byte is an ASCII small letter. -/
def isAsciiLower (b : Nat) : Bool := decide (97 ≤ b ∧ b ≤ 122)

/-- Modelled from the spec: `harfrust::Script::from_iso15924_tag`.  The crate
is external to this repository; the spec (sections 3 and 6) describes the
script as a 4-byte ISO-15924 tag matching "a 4-character mnemonic
convention", i.e. one capital letter followed by three small letters.  A tag
of that shape is recognized and kept verbatim; any other tag is rejected. -/
def scriptFromIso15924Tag (t : Nat) : Option Nat :=
  match tagToBeBytes t with
  | [b0, b1, b2, b3] =>
    if isAsciiUpper b0 && isAsciiLower b1 && isAsciiLower b2 && isAsciiLower b3 then
      some t
    else none
  | _ => none

/-- lib.rs `harfrust_buffer_set_script`: recognizes the big-endian tag via the
engine and stores it; an unrecognized tag leaves the buffer untouched, and
the function has no status channel (it returns nothing). -/
def harfrust_buffer_set_script (buffer : Option HarfRustBuffer) (script_tag : Nat) :
    Option HarfRustBuffer :=
  match buffer with
  | none => none
  | some b =>
    match scriptFromIso15924Tag script_tag with
    | some s => some { inner := { b.inner with script := some s } }
    | none => some b

/-- lib.rs `harfrust_buffer_get_script`: the stored tag as a big-endian u32,
0 when the buffer is null or no script is set. -/
def harfrust_buffer_get_script (buffer : Option HarfRustBuffer) : Nat :=
  match buffer with
  | none => 0
  | some b => b.inner.script.getD 0

/-- Whether a byte is an ASCII letter. -/
def isAsciiAlphaB (b : Nat) : Bool := isAsciiUpper b || isAsciiLower b

/-- Whether a byte is an ASCII letter or digit. -/
def isAsciiAlphaNumB (b : Nat) : Bool := isAsciiAlphaB b || decide (48 ≤ b ∧ b ≤ 57)

/-- Modelled from the spec: well-formedness of a BCP-47 language tag (spec
section 4.3, "language parsed from a BCP-47 string"): hyphen-separated
subtags, the primary subtag 2 to 8 ASCII letters, each following subtag 1 to
8 ASCII letters or digits. -/
def bcp47Valid (bytes : List Nat) : Bool :=
  match bytes.splitOn 45 with
  | [] => false
  | first :: rest =>
    decide (2 ≤ first.length) && decide (first.length ≤ 8) && first.all isAsciiAlphaB &&
      rest.all (fun s =>
        decide (1 ≤ s.length) && decide (s.length ≤ 8) && s.all isAsciiAlphaNumB)

/-- Modelled from the spec: `str::parse::<harfrust::Language>`, accepting
well-formed BCP-47 tags; the canonical form is modelled as the validated tag
itself (no entry point reads the language back, so its exact canonical shape
is unobservable here). -/
def bcp47Parse (bytes : List Nat) : Option (List Nat) :=
  if bcp47Valid bytes then some bytes else none

/-- lib.rs `harfrust_buffer_set_language`: UTF-8 validation via
`CStr::to_str` (-3 on failure), then BCP-47 parsing (-4 on failure), storing
the parsed language on success with status 0. -/
def harfrust_buffer_set_language (buffer : Option HarfRustBuffer)
    (language : Option (List Nat)) : Int × Option HarfRustBuffer :=
  match buffer with
  | none => (-1, none)
  | some b =>
    match language with
    | none => (-2, some b)
    | some bytes =>
      match utf8Decode bytes with
      | none => (-3, some b)
      | some _ =>
        match bcp47Parse bytes with
        | some lang => (0, some { inner := { b.inner with language := some lang } })
        | none => (-4, some b)

/-- lib.rs `harfrust_buffer_guess_segment_properties`. -/
def harfrust_buffer_guess_segment_properties (e : ShapeEngine)
    (buffer : Option HarfRustBuffer) : Option HarfRustBuffer :=
  match buffer with
  | none => none
  | some b => some { inner := e.guess b.inner }

/-! Font functions. -/

/-- lib.rs `harfrust_font_from_data`: copies the first `len` bytes, validates
them via the engine (`FontRef::new`), and returns a store handle, or null on
null data, non-positive length, or validation failure. -/
def harfrust_font_from_data (e : ShapeEngine) (data : Option (List Nat)) (len : Int) :
    Option HarfRustFont :=
  match data with
  | none => none
  | some bytes =>
    if len ≤ 0 then none
    else if e.fontParses (bytes.take len.toNat) then some { data := bytes.take len.toNat }
    else none

/-- lib.rs `harfrust_font_from_data_index`: as `harfrust_font_from_data` but
validating the face at `index` via `FontRef::from_index`. -/
def harfrust_font_from_data_index (e : ShapeEngine) (data : Option (List Nat)) (len : Int)
    (index : Nat) : Option HarfRustFont :=
  match data with
  | none => none
  | some bytes =>
    if len ≤ 0 then none
    else if e.fontParsesIndex (bytes.take len.toNat) index then
      some { data := bytes.take len.toNat }
    else none

/-- lib.rs `harfrust_font_units_per_em`: re-parses the stored bytes and reports
the shaper's units-per-em (a u16, hence non-negative), -1 on a null handle or
re-parse failure.  The second component is the store after the call: the
function reads through `*const` and cannot mutate it. -/
def harfrust_font_units_per_em (e : ShapeEngine) (font : Option HarfRustFont) :
    Int × Option HarfRustFont :=
  match font with
  | none => (-1, none)
  | some f =>
    if e.fontParses f.data then ((e.unitsPerEm f.data : Int), some f)
    else (-1, some f)

/-- lib.rs `harfrust_font_free`: the handle after the call. -/
def harfrust_font_free (_ : Option HarfRustFont) : Option HarfRustFont := none

/-! Shape functions. -/

/-- The segment-property step shared by all three shape entry points
(lib.rs lines 452-455, 515-518, 614-617): guess only when the direction is
still unset. -/
def resolveSegmentProps (e : ShapeEngine) (u : UnicodeBuffer) : UnicodeBuffer :=
  if u.direction = Direction.Invalid then e.guess u else u

/-- Feature conversion loop shared by the shape entry points: a null or empty
feature array contributes no features, otherwise each entry is copied with
its tag passed through `Tag::new(&u32.to_be_bytes())`. -/
def convFeature (f : HarfRustFeature) : EngineFeature :=
  { tag := f.tag, value := f.value, start := f.start, end_ := f.end_ }

/-- Conversion of the (pointer, count) feature array; `none` is a null
pointer.  A null pointer or zero count yields the empty list, which the map
over the empty array also yields. -/
def convFeatures (features : Option (List HarfRustFeature)) : List EngineFeature :=
  match features with
  | none => []
  | some fs => fs.map convFeature

/-- Variation conversion (`(Tag, f32).into()`). -/
def convVariation (v : HarfRustVariation) : EngineVariation :=
  { tag := v.tag, value := v.value }

/-- lib.rs `harfrust_shape_full` lines 592-603: a variation instance is built
exactly when the variation array is non-null and non-empty. -/
def instanceOf (variations : Option (List HarfRustVariation)) : Option (List EngineVariation) :=
  match variations with
  | none => none
  | some vs => if 0 < vs.length then some (vs.map convVariation) else none

/-- Materialization of the shaping output into the FFI wrapper with its two
cached fixed-layout arrays (lib.rs lines 461-487 and the analogous blocks in
the other two shape functions). -/
def mkGlyphBuffer (g : GlyphOutput) : HarfRustGlyphBuffer :=
  { inner := g
    infos_cache := g.infos.map (fun i => { glyph_id := i.glyph_id, cluster := i.cluster })
    positions_cache := g.positions.map (fun p =>
      { x_advance := p.x_advance, y_advance := p.y_advance,
        x_offset := p.x_offset, y_offset := p.y_offset }) }

/-- lib.rs `harfrust_shape`.  Returns the produced result handle and the font
store after the call; the font is read through `*const` and never written, so
the store component is the unchanged input. -/
def harfrust_shape (e : ShapeEngine) (font : Option HarfRustFont)
    (buffer : Option HarfRustBuffer) : Option HarfRustGlyphBuffer × Option HarfRustFont :=
  match font, buffer with
  | none, _ => (none, none)
  | some f, none => (none, some f)
  | some f, some b =>
    if e.fontParses f.data then
      (some (mkGlyphBuffer (e.shape f.data none (resolveSegmentProps e b.inner) [])), some f)
    else (none, some f)

/-- lib.rs `harfrust_shape_with_features`. -/
def harfrust_shape_with_features (e : ShapeEngine) (font : Option HarfRustFont)
    (buffer : Option HarfRustBuffer) (features : Option (List HarfRustFeature)) :
    Option HarfRustGlyphBuffer × Option HarfRustFont :=
  match font, buffer with
  | none, _ => (none, none)
  | some f, none => (none, some f)
  | some f, some b =>
    if e.fontParses f.data then
      (some (mkGlyphBuffer
        (e.shape f.data none (resolveSegmentProps e b.inner) (convFeatures features))), some f)
    else (none, some f)

/-- lib.rs `harfrust_shape_full`. -/
def harfrust_shape_full (e : ShapeEngine) (font : Option HarfRustFont)
    (buffer : Option HarfRustBuffer) (features : Option (List HarfRustFeature))
    (variations : Option (List HarfRustVariation)) :
    Option HarfRustGlyphBuffer × Option HarfRustFont :=
  match font, buffer with
  | none, _ => (none, none)
  | some f, none => (none, some f)
  | some f, some b =>
    if e.fontParses f.data then
      (some (mkGlyphBuffer
        (e.shape f.data (instanceOf variations) (resolveSegmentProps e b.inner)
          (convFeatures features))), some f)
    else (none, some f)

/-! Glyph buffer functions. -/

/-- lib.rs `harfrust_glyph_buffer_len`: the engine's `GlyphBuffer::len()`,
i.e. the number of glyphs. -/
def harfrust_glyph_buffer_len (buffer : Option HarfRustGlyphBuffer) : Int :=
  match buffer with
  | none => -1
  | some gb => (gb.inner.infos.length : Int)

/-- lib.rs `harfrust_glyph_buffer_get_infos`: pointer to the cached glyph-info
array (the array itself here), null on a null handle. -/
def harfrust_glyph_buffer_get_infos (buffer : Option HarfRustGlyphBuffer) :
    Option (List HarfRustGlyphInfo) :=
  match buffer with
  | none => none
  | some gb => some gb.infos_cache

/-- lib.rs `harfrust_glyph_buffer_get_positions`. -/
def harfrust_glyph_buffer_get_positions (buffer : Option HarfRustGlyphBuffer) :
    Option (List HarfRustGlyphPosition) :=
  match buffer with
  | none => none
  | some gb => some gb.positions_cache

/-- lib.rs `harfrust_glyph_buffer_into_buffer`: recycles the result into a new
empty text buffer (the engine's `GlyphBuffer::clear`, modelled from the spec
section 4.5: the recycled buffer is a new empty Text Buffer). -/
def harfrust_glyph_buffer_into_buffer (buffer : Option HarfRustGlyphBuffer) :
    Option HarfRustBuffer :=
  match buffer with
  | none => none
  | some _ => some { inner := UnicodeBuffer.empty }

/-- lib.rs `harfrust_glyph_buffer_free`: the handle after the call. -/
def harfrust_glyph_buffer_free (_ : Option HarfRustGlyphBuffer) :
    Option HarfRustGlyphBuffer := none

/-! Claim-side reference definitions and concrete engines used by witnesses. -/

/-- Reference decoding for the UTF-16 append claim: each decoded codepoint
(with U+FFFD substituted for an unpaired surrogate) paired with the index of
the first 16-bit unit it consumed, so consecutive clusters differ by exactly
the number of units that codepoint consumed.  `fuel` as in `decodeUtf16Aux`. -/
def utf16SpecPairsAux : Nat → List Nat → Nat → List (Nat × Nat)
  | _, [], _ => []
  | 0, _ :: _, _ => []
  | fuel + 1, u :: rest, i =>
    if u < 0xD800 ∨ 0xE000 ≤ u then
      (u, i) :: utf16SpecPairsAux fuel rest (i + 1)
    else if 0xDC00 ≤ u then
      (0xFFFD, i) :: utf16SpecPairsAux fuel rest (i + 1)
    else
      match rest with
      | [] => [(0xFFFD, i)]
      | v :: rest1 =>
        if 0xDC00 ≤ v ∧ v < 0xE000 then
          (0x10000 + (u - 0xD800) * 0x400 + (v - 0xDC00), i) ::
            utf16SpecPairsAux fuel rest1 (i + 2)
        else
          (0xFFFD, i) :: utf16SpecPairsAux fuel (v :: rest1) (i + 1)

/-- Reference decoding for the UTF-16 append claim, clusters starting at `i`. -/
def utf16SpecPairs (units : List Nat) (i : Nat) : List (Nat × Nat) :=
  utf16SpecPairsAux units.length units i

/-- The (codepoint, byte offset) pairs an ASCII byte list decodes to. -/
def asciiPairs : List Nat → Nat → List (Nat × Nat)
  | [], _ => []
  | b :: rest, ofs => (b, ofs) :: asciiPairs rest (ofs + 1)

/-- A concrete engine on which every font parses; used to instantiate
universally quantified theorems at a witness input. -/
def okEngine : ShapeEngine where
  fontParses := fun _ => true
  fontParsesIndex := fun _ _ => true
  unitsPerEm := fun _ => 1000
  guess := fun u => u
  shape := fun _ _ _ _ => { infos := [], positions := [], len_eq := rfl }

/-- A concrete engine on which no font parses; used to exercise the
defensive re-parse failure paths at a witness input. -/
def badEngine : ShapeEngine where
  fontParses := fun _ => false
  fontParsesIndex := fun _ _ => false
  unitsPerEm := fun _ => 1000
  guess := fun u => u
  shape := fun _ _ _ _ => { infos := [], positions := [], len_eq := rfl }

/-- Buffer with an explicitly set right-to-left direction (spec scenario 4),
used to instantiate the guessing claim. -/
def rtlBuffer : HarfRustBuffer :=
  { inner := { UnicodeBuffer.empty with direction := Direction.RightToLeft } }

/-- Buffer whose script is already Latn, used to instantiate the
unrecognized-script-tag claim. -/
def latnBuffer : HarfRustBuffer :=
  { inner := { UnicodeBuffer.empty with script := some (tagOfBytes 76 97 116 110) } }

/-- The glyph result `okEngine` produces for an empty buffer and empty font
data, used to instantiate the glyph-result length claim. -/
def witnessGlyphBuffer : HarfRustGlyphBuffer :=
  mkGlyphBuffer (okEngine.shape [] none (resolveSegmentProps okEngine harfrust_buffer_new.inner) [])

/-! Helper lemmas. -/

/-- An all-ASCII byte list decodes to one codepoint per byte, clusters being
the byte offsets. -/
theorem utf8DecodeAux_ascii (s : List Nat) : ∀ (fuel ofs : Nat), s.length ≤ fuel →
    (∀ x ∈ s, x < 0x80) → utf8DecodeAux fuel s ofs = some (asciiPairs s ofs) := by
  induction s with
  | nil => intro fuel ofs _ _; cases fuel <;> rfl
  | cons b rest ih =>
    intro fuel ofs hlen hall
    cases fuel with
    | zero => simp only [List.length_cons] at hlen; omega
    | succ n =>
      have hb : b < 0x80 := hall b (List.mem_cons_self b rest)
      have hrec : utf8DecodeAux n rest (ofs + 1) = some (asciiPairs rest (ofs + 1)) := by
        refine ih n (ofs + 1) ?_ (fun x hx => hall x (List.mem_cons_of_mem b hx))
        simp only [List.length_cons] at hlen; omega
      simp [utf8DecodeAux, hb, hrec, asciiPairs]

/-- `asciiPairs` keeps the length of its input. -/
theorem asciiPairs_length (s : List Nat) : ∀ ofs : Nat, (asciiPairs s ofs).length = s.length := by
  induction s with
  | nil => intro ofs; rfl
  | cons b rest ih => intro ofs; simp [asciiPairs, ih]

/-- The wrapper's UTF-16 append loop (cluster advanced by the decoded
codepoint's `len_utf16`) produces exactly the reference decoding whose
clusters are the indices of the first unit each codepoint consumed. -/
theorem addUtf16Pairs_eq_spec : ∀ (fuel : Nat) (units : List Nat) (c : Nat),
    (∀ u ∈ units, u < 0x10000) →
    addUtf16Pairs (decodeUtf16Aux fuel units) c = utf16SpecPairsAux fuel units c := by
  intro fuel
  induction fuel with
  | zero =>
    intro units c _
    rcases units with _ | ⟨u, rest⟩ <;> rfl
  | succ n ih =>
    intro units c hall
    rcases units with _ | ⟨u, rest⟩
    · rfl
    · have hu : u < 0x10000 := hall u (List.mem_cons_self u rest)
      have hrest : ∀ x ∈ rest, x < 0x10000 := fun x hx => hall x (List.mem_cons_of_mem u hx)
      by_cases hbmp : u < 0xD800 ∨ 0xE000 ≤ u
      · have hcp : cpLenUtf16 u = 1 := by
          unfold cpLenUtf16
          rw [if_neg (by omega : ¬ (0x10000 ≤ u))]
        simp only [decodeUtf16Aux, utf16SpecPairsAux, if_pos hbmp]
        simp only [addUtf16Pairs, Option.getD_some, hcp]
        exact congrArg _ (ih rest (c + 1) hrest)
      · by_cases hlow : 0xDC00 ≤ u
        · have hcp : cpLenUtf16 0xFFFD = 1 := by decide
          simp only [decodeUtf16Aux, utf16SpecPairsAux, if_neg hbmp, if_pos hlow]
          simp only [addUtf16Pairs, Option.getD_none, hcp]
          exact congrArg _ (ih rest (c + 1) hrest)
        · rcases rest with _ | ⟨v, rest1⟩
          · simp only [decodeUtf16Aux, utf16SpecPairsAux, if_neg hbmp, if_neg hlow]
            simp [addUtf16Pairs]
          · have hrest1 : ∀ x ∈ rest1, x < 0x10000 :=
              fun x hx => hrest x (List.mem_cons_of_mem v hx)
            by_cases hv : 0xDC00 ≤ v ∧ v < 0xE000
            · have hcp : cpLenUtf16 (0x10000 + (u - 0xD800) * 0x400 + (v - 0xDC00)) = 2 := by
                unfold cpLenUtf16
                rw [if_pos (by omega : 0x10000 ≤ 0x10000 + (u - 0xD800) * 0x400 + (v - 0xDC00))]
              simp only [decodeUtf16Aux, utf16SpecPairsAux, if_neg hbmp, if_neg hlow, if_pos hv]
              rw [show ∀ (r : Option Nat) (l : List (Option Nat)) (k : Nat),
                  addUtf16Pairs (r :: l) k =
                    (r.getD 0xFFFD, k) :: addUtf16Pairs l (k + cpLenUtf16 (r.getD 0xFFFD)) from
                fun r l k => rfl]
              rw [Option.getD_some, hcp]
              exact congrArg _ (ih rest1 (c + 2) hrest1)
            · have hcp : cpLenUtf16 0xFFFD = 1 := by decide
              simp only [decodeUtf16Aux, utf16SpecPairsAux, if_neg hbmp, if_neg hlow, if_neg hv]
              simp only [addUtf16Pairs, Option.getD_none, hcp]
              exact congrArg _ (ih (v :: rest1) (c + 1) hrest)

/-- The cached arrays of a materialized glyph result have the same length,
which is the reported glyph count. -/
theorem mkGlyphBuffer_lengths (g : GlyphOutput) :
    (mkGlyphBuffer g).infos_cache.length = (mkGlyphBuffer g).positions_cache.length ∧
    harfrust_glyph_buffer_len (some (mkGlyphBuffer g)) =
      ((mkGlyphBuffer g).infos_cache.length : Int) := by
  simp [mkGlyphBuffer, harfrust_glyph_buffer_len, g.len_eq]

/-- Every non-null result of `harfrust_shape` is a materialized engine
output. -/
theorem harfrust_shape_eq_some (e : ShapeEngine) (of : Option HarfRustFont)
    (ob : Option HarfRustBuffer) (gb : HarfRustGlyphBuffer)
    (h : (harfrust_shape e of ob).1 = some gb) : ∃ g : GlyphOutput, gb = mkGlyphBuffer g := by
  match of, ob with
  | none, ob => simp [harfrust_shape] at h
  | some f, none => simp [harfrust_shape] at h
  | some f, some b =>
    by_cases hp : e.fontParses f.data
    · refine ⟨e.shape f.data none (resolveSegmentProps e b.inner) [], ?_⟩
      simp [harfrust_shape, hp] at h
      exact h.symm
    · simp [harfrust_shape, hp] at h

/-- Every non-null result of `harfrust_shape_with_features` is a materialized
engine output. -/
theorem harfrust_shape_with_features_eq_some (e : ShapeEngine) (of : Option HarfRustFont)
    (ob : Option HarfRustBuffer) (fs : Option (List HarfRustFeature)) (gb : HarfRustGlyphBuffer)
    (h : (harfrust_shape_with_features e of ob fs).1 = some gb) :
    ∃ g : GlyphOutput, gb = mkGlyphBuffer g := by
  match of, ob with
  | none, ob => simp [harfrust_shape_with_features] at h
  | some f, none => simp [harfrust_shape_with_features] at h
  | some f, some b =>
    by_cases hp : e.fontParses f.data
    · refine ⟨e.shape f.data none (resolveSegmentProps e b.inner) (convFeatures fs), ?_⟩
      simp [harfrust_shape_with_features, hp] at h
      exact h.symm
    · simp [harfrust_shape_with_features, hp] at h

/-- Every non-null result of `harfrust_shape_full` is a materialized engine
output. -/
theorem harfrust_shape_full_eq_some (e : ShapeEngine) (of : Option HarfRustFont)
    (ob : Option HarfRustBuffer) (fs : Option (List HarfRustFeature))
    (vs : Option (List HarfRustVariation)) (gb : HarfRustGlyphBuffer)
    (h : (harfrust_shape_full e of ob fs vs).1 = some gb) :
    ∃ g : GlyphOutput, gb = mkGlyphBuffer g := by
  match of, ob with
  | none, ob => simp [harfrust_shape_full] at h
  | some f, none => simp [harfrust_shape_full] at h
  | some f, some b =>
    by_cases hp : e.fontParses f.data
    · refine ⟨e.shape f.data (instanceOf vs) (resolveSegmentProps e b.inner) (convFeatures fs), ?_⟩
      simp [harfrust_shape_full, hp] at h
      exact h.symm
    · simp [harfrust_shape_full, hp] at h

/-! Claim theorems. -/

/-- C1: for every shape call (`harfrust_shape`, `harfrust_shape_with_features`,
`harfrust_shape_full`) on a non-null font and non-null buffer, segment-property
guessing is run on the buffer if and only if the buffer's direction is still
Unset (Invalid) at the time of the call: with an explicit direction the engine
shapes the buffer exactly as passed in (for every possible guessing function,
so the explicit direction is never overridden), and with direction Invalid the
engine shapes the guessed buffer. -/
theorem shape_guesses_iff_direction_unset (e : ShapeEngine) (f : HarfRustFont)
    (b : HarfRustBuffer) (fs : Option (List HarfRustFeature))
    (vs : Option (List HarfRustVariation)) (hparse : e.fontParses f.data = true) :
    (b.inner.direction ≠ Direction.Invalid →
      (harfrust_shape e (some f) (some b)).1 =
        some (mkGlyphBuffer (e.shape f.data none b.inner [])) ∧
      (harfrust_shape_with_features e (some f) (some b) fs).1 =
        some (mkGlyphBuffer (e.shape f.data none b.inner (convFeatures fs))) ∧
      (harfrust_shape_full e (some f) (some b) fs vs).1 =
        some (mkGlyphBuffer (e.shape f.data (instanceOf vs) b.inner (convFeatures fs)))) ∧
    (b.inner.direction = Direction.Invalid →
      (harfrust_shape e (some f) (some b)).1 =
        some (mkGlyphBuffer (e.shape f.data none (e.guess b.inner) [])) ∧
      (harfrust_shape_with_features e (some f) (some b) fs).1 =
        some (mkGlyphBuffer (e.shape f.data none (e.guess b.inner) (convFeatures fs))) ∧
      (harfrust_shape_full e (some f) (some b) fs vs).1 =
        some (mkGlyphBuffer (e.shape f.data (instanceOf vs) (e.guess b.inner)
          (convFeatures fs)))) := by
  constructor
  · intro hdir
    have hr : resolveSegmentProps e b.inner = b.inner := by
      simp [resolveSegmentProps, hdir]
    refine ⟨?_, ?_, ?_⟩ <;>
      simp [harfrust_shape, harfrust_shape_with_features, harfrust_shape_full, hparse, hr]
  · intro hdir
    have hr : resolveSegmentProps e b.inner = e.guess b.inner := by
      simp [resolveSegmentProps, hdir]
    refine ⟨?_, ?_, ?_⟩ <;>
      simp [harfrust_shape, harfrust_shape_with_features, harfrust_shape_full, hparse, hr]

/-- Witness for C1: a buffer with direction explicitly set to right-to-left
(spec scenario 4) is shaped exactly as passed in, without guessing. -/
theorem shape_guesses_iff_direction_unset_witness :
    (harfrust_shape okEngine (some { data := [] }) (some rtlBuffer)).1 =
      some (mkGlyphBuffer (okEngine.shape [] none rtlBuffer.inner [])) :=
  ((shape_guesses_iff_direction_unset okEngine { data := [] } rtlBuffer none none rfl).1
    (by decide)).1

/-- C2: every entry point invoked with a null primary handle returns its
documented sentinel (-1 for status-returning calls, a null handle for
handle-returning calls, the unset/zero value for the two getters, the
unchanged null handle for the in-place operations) and leaves every other
piece of state it returns unchanged. -/
theorem null_primary_handle_safe (e : ShapeEngine) (bytes units : List Nat) (len : Int)
    (d : Direction) (t idx : Nat) (b : HarfRustBuffer)
    (fs : Option (List HarfRustFeature)) (vs : Option (List HarfRustVariation)) :
    harfrust_buffer_add_str none (some bytes) = (-1, none) ∧
    harfrust_buffer_add_utf16 none (some units) len = (-1, none) ∧
    harfrust_buffer_len none = -1 ∧
    harfrust_buffer_clear none = none ∧
    harfrust_buffer_free none = none ∧
    harfrust_buffer_set_direction none d = none ∧
    harfrust_buffer_get_direction none = Direction.Invalid ∧
    harfrust_buffer_set_script none t = none ∧
    harfrust_buffer_get_script none = 0 ∧
    harfrust_buffer_set_language none (some bytes) = (-1, none) ∧
    harfrust_buffer_guess_segment_properties e none = none ∧
    harfrust_font_from_data e none len = none ∧
    harfrust_font_from_data_index e none len idx = none ∧
    harfrust_font_units_per_em e none = (-1, none) ∧
    harfrust_font_free none = none ∧
    harfrust_shape e none (some b) = (none, none) ∧
    harfrust_shape_with_features e none (some b) fs = (none, none) ∧
    harfrust_shape_full e none (some b) fs vs = (none, none) ∧
    harfrust_glyph_buffer_len none = -1 ∧
    harfrust_glyph_buffer_get_infos none = none ∧
    harfrust_glyph_buffer_get_positions none = none ∧
    harfrust_glyph_buffer_into_buffer none = none ∧
    harfrust_glyph_buffer_free none = none :=
  ⟨rfl, rfl, rfl, rfl, rfl, rfl, rfl, rfl, rfl, rfl, rfl, rfl, rfl, rfl, rfl, rfl, rfl, rfl,
    rfl, rfl, rfl, rfl, rfl⟩

/-- C3: every precondition failure of a shape call (null font handle, null
buffer handle, or font bytes that fail to re-parse) returns a null result
handle and leaves the font store's byte blob unchanged. -/
theorem shape_failure_null_result_store_unchanged (e : ShapeEngine) (f : HarfRustFont)
    (b : HarfRustBuffer) (ob : Option HarfRustBuffer) (fs : Option (List HarfRustFeature))
    (vs : Option (List HarfRustVariation)) (hfail : e.fontParses f.data = false) :
    (harfrust_shape e none ob).1 = none ∧
    harfrust_shape e (some f) none = (none, some f) ∧
    harfrust_shape e (some f) (some b) = (none, some f) ∧
    (harfrust_shape_with_features e none ob fs).1 = none ∧
    harfrust_shape_with_features e (some f) none fs = (none, some f) ∧
    harfrust_shape_with_features e (some f) (some b) fs = (none, some f) ∧
    (harfrust_shape_full e none ob fs vs).1 = none ∧
    harfrust_shape_full e (some f) none fs vs = (none, some f) ∧
    harfrust_shape_full e (some f) (some b) fs vs = (none, some f) := by
  refine ⟨?_, rfl, ?_, ?_, rfl, ?_, ?_, rfl, ?_⟩
  · cases ob <;> rfl
  · simp [harfrust_shape, hfail]
  · cases ob <;> rfl
  · simp [harfrust_shape_with_features, hfail]
  · cases ob <;> rfl
  · simp [harfrust_shape_full, hfail]

/-- Witness for C3: on an engine whose re-parse fails, shaping a valid buffer
against a stored font yields a null result and the identical stored blob. -/
theorem shape_failure_null_result_store_unchanged_witness :
    harfrust_shape badEngine (some { data := [7] }) (some harfrust_buffer_new) =
      (none, some { data := [7] }) :=
  (shape_failure_null_result_store_unchanged badEngine { data := [7] } harfrust_buffer_new
    none none none rfl).2.2.1

/-- C4 counterexample: the claim "for every 4-character ASCII tag, set-script
then get-script returns the identical tag" fails at the ASCII tag made of the
bytes of capital L, a, the digit 1, n: the tag is not a recognized ISO-15924
script, the set is dropped, and get-script on the fresh buffer returns 0. -/
theorem script_roundtrip_counterexample :
    harfrust_buffer_get_script
      (harfrust_buffer_set_script (some harfrust_buffer_new) (tagOfBytes 76 97 49 110)) ≠
      tagOfBytes 76 97 49 110 := by decide

/-- C4 (amended): for every non-null buffer and every 4-character ASCII tag in
ISO-15924 mnemonic form (one capital letter followed by three small letters),
set-script with the big-endian encoding followed by get-script returns the
identical tag. -/
theorem script_roundtrip_mnemonic (b : HarfRustBuffer) (b0 b1 b2 b3 : Nat)
    (h0 : isAsciiUpper b0 = true) (h1 : isAsciiLower b1 = true)
    (h2 : isAsciiLower b2 = true) (h3 : isAsciiLower b3 = true) :
    harfrust_buffer_get_script
      (harfrust_buffer_set_script (some b) (tagOfBytes b0 b1 b2 b3)) =
      tagOfBytes b0 b1 b2 b3 := by
  have e0 : 65 ≤ b0 ∧ b0 ≤ 90 := by simpa [isAsciiUpper] using h0
  have e1 : 97 ≤ b1 ∧ b1 ≤ 122 := by simpa [isAsciiLower] using h1
  have e2 : 97 ≤ b2 ∧ b2 ≤ 122 := by simpa [isAsciiLower] using h2
  have e3 : 97 ≤ b3 ∧ b3 ≤ 122 := by simpa [isAsciiLower] using h3
  have hbytes : tagToBeBytes (tagOfBytes b0 b1 b2 b3) = [b0, b1, b2, b3] := by
    simp only [tagToBeBytes, tagOfBytes, List.cons.injEq, and_true]
    refine ⟨?_, ?_, ?_, ?_⟩ <;> omega
  simp [harfrust_buffer_set_script, scriptFromIso15924Tag, hbytes, h0, h1, h2, h3,
    harfrust_buffer_get_script]

/-- Witness for C4 (amended): the Latn tag round-trips on a fresh buffer
(spec scenario 2). -/
theorem script_roundtrip_mnemonic_witness :
    harfrust_buffer_get_script
      (harfrust_buffer_set_script (some harfrust_buffer_new) (tagOfBytes 76 97 116 110)) =
      tagOfBytes 76 97 116 110 :=
  script_roundtrip_mnemonic harfrust_buffer_new 76 97 116 110 (by decide) (by decide)
    (by decide) (by decide)

/-- C5: every glyph result produced by a successful shape call (any of the
three entry points) has cached glyph-info and position arrays of identical
length, and that common length is the value reported by
`harfrust_glyph_buffer_len`.  The result is never mutated afterwards by the
embedding, so the equality holds for the whole lifetime of the value. -/
theorem glyph_result_arrays_aligned (e : ShapeEngine) (of : Option HarfRustFont)
    (ob : Option HarfRustBuffer) (fs : Option (List HarfRustFeature))
    (vs : Option (List HarfRustVariation)) (gb : HarfRustGlyphBuffer)
    (h : (harfrust_shape e of ob).1 = some gb ∨
         (harfrust_shape_with_features e of ob fs).1 = some gb ∨
         (harfrust_shape_full e of ob fs vs).1 = some gb) :
    gb.infos_cache.length = gb.positions_cache.length ∧
    harfrust_glyph_buffer_len (some gb) = (gb.infos_cache.length : Int) := by
  rcases h with h | h | h
  · obtain ⟨g, rfl⟩ := harfrust_shape_eq_some e of ob gb h
    exact mkGlyphBuffer_lengths g
  · obtain ⟨g, rfl⟩ := harfrust_shape_with_features_eq_some e of ob fs gb h
    exact mkGlyphBuffer_lengths g
  · obtain ⟨g, rfl⟩ := harfrust_shape_full_eq_some e of ob fs vs gb h
    exact mkGlyphBuffer_lengths g

/-- Witness for C5, at a concrete successful `harfrust_shape` call. -/
theorem glyph_result_arrays_aligned_witness :
    witnessGlyphBuffer.infos_cache.length = witnessGlyphBuffer.positions_cache.length ∧
    harfrust_glyph_buffer_len (some witnessGlyphBuffer) =
      (witnessGlyphBuffer.infos_cache.length : Int) :=
  glyph_result_arrays_aligned okEngine (some { data := [] }) (some harfrust_buffer_new)
    none none witnessGlyphBuffer (Or.inl rfl)

/-- C6: for every non-null buffer and UTF-16 unit sequence of non-negative
length, `harfrust_buffer_add_utf16` returns 0 and appends exactly the
reference decoding `utf16SpecPairs`: one codepoint per decode step with the
Unicode replacement character U+FFFD substituted for each unpaired surrogate
unit, each codepoint's cluster being the number of 16-bit units consumed
before it (starting from 0), so the cluster advances by exactly the 1 or 2
units that codepoint consumed. -/
theorem add_utf16_replacement_and_clusters (b : HarfRustBuffer) (units : List Nat)
    (h : ∀ u ∈ units, u < 0x10000) :
    harfrust_buffer_add_utf16 (some b) (some units) (units.length : Int) =
      (0, some { inner := { b.inner with
        chars := b.inner.chars ++ utf16SpecPairs units 0 } }) := by
  have hneg : ¬ ((units.length : Int) < 0) := by omega
  have htn : ((units.length : Int)).toNat = units.length := by omega
  simp only [harfrust_buffer_add_utf16, if_neg hneg, htn, List.take_length]
  rw [show decodeUtf16 units = decodeUtf16Aux units.length units from rfl,
    addUtf16Pairs_eq_spec units.length units 0 h]
  rfl

/-- Witness for C6: a BMP character, a surrogate pair, an unpaired high
surrogate, and another BMP character. -/
theorem add_utf16_replacement_and_clusters_witness :
    harfrust_buffer_add_utf16 (some harfrust_buffer_new) (some [72, 55357, 56832, 55296, 65])
      (([72, 55357, 56832, 55296, 65] : List Nat).length : Int) =
      (0, some { inner := { harfrust_buffer_new.inner with
        chars := harfrust_buffer_new.inner.chars ++
          utf16SpecPairs [72, 55357, 56832, 55296, 65] 0 } }) :=
  add_utf16_replacement_and_clusters harfrust_buffer_new [72, 55357, 56832, 55296, 65]
    (by decide)

/-- C7: `harfrust_buffer_set_language` on a non-null buffer returns -3 on
bytes invalid in the declared encoding leaving the buffer unmodified,
-4 on a string failing BCP-47 parsing leaving the buffer unmodified, and 0 on
a parseable tag updating only the language; in particular the strings en and
en-US (spec scenario 3) both succeed with status 0. -/
theorem set_language_statuses (b : HarfRustBuffer) (bytes lang : List Nat) :
    (utf8Decode bytes = none →
      harfrust_buffer_set_language (some b) (some bytes) = (-3, some b)) ∧
    (utf8Decode bytes ≠ none → bcp47Parse bytes = none →
      harfrust_buffer_set_language (some b) (some bytes) = (-4, some b)) ∧
    (utf8Decode bytes ≠ none → bcp47Parse bytes = some lang →
      harfrust_buffer_set_language (some b) (some bytes) =
        (0, some { inner := { b.inner with language := some lang } })) ∧
    (harfrust_buffer_set_language (some b) (some [101, 110])).1 = 0 ∧
    (harfrust_buffer_set_language (some b) (some [101, 110, 45, 85, 83])).1 = 0 := by
  refine ⟨?_, ?_, ?_, rfl, rfl⟩
  · intro h
    simp [harfrust_buffer_set_language, h]
  · intro h1 h2
    obtain ⟨p, hp⟩ := Option.ne_none_iff_exists'.mp h1
    simp [harfrust_buffer_set_language, hp, h2]
  · intro h1 h2
    obtain ⟨p, hp⟩ := Option.ne_none_iff_exists'.mp h1
    simp [harfrust_buffer_set_language, hp, h2]

/-- Witness for C7: a tag whose primary subtag starts with a digit is rejected
with -4 and the fresh buffer is returned unmodified. -/
theorem set_language_statuses_witness :
    harfrust_buffer_set_language (some harfrust_buffer_new) (some [49, 120]) =
      (-4, some harfrust_buffer_new) :=
  (set_language_statuses harfrust_buffer_new [49, 120] []).2.1 (by decide) (by decide)

/-- C8: appending an ASCII string to a new empty buffer succeeds with status 0
and `harfrust_buffer_len` then reports the number of decoded codepoints, which
for ASCII equals the character count (= byte count); a subsequent
`harfrust_buffer_clear` makes the length 0 (the clear operates in place on the
same handle). -/
theorem ascii_add_str_len_then_clear (s : List Nat) (h : ∀ x ∈ s, x < 0x80) :
    (harfrust_buffer_add_str (some harfrust_buffer_new) (some s)).1 = 0 ∧
    (utf8Decode s).map List.length = some s.length ∧
    harfrust_buffer_len (harfrust_buffer_add_str (some harfrust_buffer_new) (some s)).2 =
      (s.length : Int) ∧
    harfrust_buffer_len (harfrust_buffer_clear
      (harfrust_buffer_add_str (some harfrust_buffer_new) (some s)).2) = 0 := by
  have hdec : utf8Decode s = some (asciiPairs s 0) := utf8DecodeAux_ascii s s.length 0 le_rfl h
  refine ⟨?_, ?_, ?_, ?_⟩
  · simp [harfrust_buffer_add_str, hdec]
  · simp [hdec, asciiPairs_length]
  · simp [harfrust_buffer_add_str, hdec, harfrust_buffer_len, harfrust_buffer_new,
      UnicodeBuffer.empty, asciiPairs_length]
  · simp [harfrust_buffer_add_str, hdec, harfrust_buffer_clear, harfrust_buffer_len]

/-- Witness for C8: the 13 ASCII characters of the string Hello, world!
(spec scenario 1). -/
theorem ascii_add_str_len_then_clear_witness :
    (harfrust_buffer_add_str (some harfrust_buffer_new)
      (some [72, 101, 108, 108, 111, 44, 32, 119, 111, 114, 108, 100, 33])).1 = 0 ∧
    (utf8Decode [72, 101, 108, 108, 111, 44, 32, 119, 111, 114, 108, 100, 33]).map
      List.length = some 13 ∧
    harfrust_buffer_len (harfrust_buffer_add_str (some harfrust_buffer_new)
      (some [72, 101, 108, 108, 111, 44, 32, 119, 111, 114, 108, 100, 33])).2 = (13 : Int) ∧
    harfrust_buffer_len (harfrust_buffer_clear (harfrust_buffer_add_str
      (some harfrust_buffer_new)
      (some [72, 101, 108, 108, 111, 44, 32, 119, 111, 114, 108, 100, 33])).2) = 0 :=
  ascii_add_str_len_then_clear [72, 101, 108, 108, 111, 44, 32, 119, 111, 114, 108, 100, 33]
    (by decide)

/-- C9: `harfrust_font_units_per_em` returns -1 exactly on a null handle or a
re-parse failure; on a font whose stored bytes re-parse it returns the
engine's units-per-em metric (a u16, hence never -1) and leaves the stored
blob unchanged. -/
theorem units_per_em_sentinel (e : ShapeEngine) (f : HarfRustFont) :
    harfrust_font_units_per_em e none = (-1, none) ∧
    (e.fontParses f.data = false → harfrust_font_units_per_em e (some f) = (-1, some f)) ∧
    (e.fontParses f.data = true →
      harfrust_font_units_per_em e (some f) = ((e.unitsPerEm f.data : Int), some f) ∧
      (harfrust_font_units_per_em e (some f)).1 ≠ -1) := by
  refine ⟨rfl, ?_, ?_⟩
  · intro h
    simp [harfrust_font_units_per_em, h]
  · intro h
    refine ⟨by simp [harfrust_font_units_per_em, h], ?_⟩
    simp only [harfrust_font_units_per_em, h, if_pos]
    omega

/-- Witness for C9: on an engine that re-parses every blob, the metric is
reported and the store returned unchanged. -/
theorem units_per_em_sentinel_witness :
    harfrust_font_units_per_em okEngine (some { data := [] }) =
      ((1000 : Int), some { data := [] }) :=
  ((units_per_em_sentinel okEngine { data := [] }).2.2 rfl).1

/-- C10: `harfrust_buffer_set_script` with a 4-byte tag that is not recognized
as a valid ISO-15924 script is a silent no-op: the buffer (all of its state)
is returned unchanged — the function has no status channel, so no error is
reported — and a subsequent get-script returns whatever script was previously
set, not the rejected tag. -/
theorem set_script_unrecognized_noop (b : HarfRustBuffer) (t : Nat)
    (h : scriptFromIso15924Tag t = none) :
    harfrust_buffer_set_script (some b) t = some b ∧
    harfrust_buffer_get_script (harfrust_buffer_set_script (some b) t) =
      harfrust_buffer_get_script (some b) := by
  have hs : harfrust_buffer_set_script (some b) t = some b := by
    simp [harfrust_buffer_set_script, h]
  exact ⟨hs, by rw [hs]⟩

/-- Witness for C10: rejecting the digit-bearing tag on a buffer whose script
is Latn leaves the buffer, and thus the observable script, unchanged. -/
theorem set_script_unrecognized_noop_witness :
    harfrust_buffer_set_script (some latnBuffer) (tagOfBytes 76 97 49 110) = some latnBuffer ∧
    harfrust_buffer_get_script
      (harfrust_buffer_set_script (some latnBuffer) (tagOfBytes 76 97 49 110)) =
      harfrust_buffer_get_script (some latnBuffer) :=
  set_script_unrecognized_noop latnBuffer (tagOfBytes 76 97 49 110) (by decide)
